import Mathlib

/-!
# Verification of the nix-appimage launcher core

Shallow embedding of `src/main.rs` and `src/id_map.rs`.  Every syscall or
filesystem effect the program performs is recorded as an `Event` in a trace;
a `World` value fixes the outcome of every external interaction (whether a
given syscall succeeds, what the filesystem contains, how long an existence
probe takes).  Each Rust function that drives effects becomes a Lean function
from its inputs and the `World` to a `TraceResult`: the list of attempted
effects together with `none` (normal completion) or `some e` (the `?`
operator propagated an error, or an `.unwrap()` panicked).

`IdMap` models the macro-generated `UidMap`/`GidMap` pair of `id_map.rs`
(both instantiations share one shape; ids are `u32` on the Rust side).
-/

namespace NixAppImage

/-- Paths as component lists; `PathBuf::file_name` is the last component and
`PathBuf::join` appends one component. -/
abbrev HostPath := List String

/-- `PathBuf::file_name`. -/
def fileName (p : HostPath) : Option String := p.getLast?

/-- `PathBuf::join` with a single component. -/
def joinPath (p : HostPath) (s : String) : HostPath := p ++ [s]

deriving instance DecidableEq for Except

/-- Fuel-based digit accumulation (structural recursion so the kernel can
evaluate it); `natChars n` supplies fuel `n + 1`, which always suffices. -/
def natCharsAux : Nat → Nat → List Char → List Char
  | 0, _, acc => acc
  | fuel + 1, n, acc =>
    if n < 10 then Nat.digitChar n :: acc
    else natCharsAux fuel (n / 10) (Nat.digitChar (n % 10) :: acc)

/-- Decimal digit characters of `n`, most significant first: the model of
Rust's `format!("{n}")` for an unsigned integer. -/
def natChars (n : Nat) : List Char := natCharsAux (n + 1) n []

def natToString (n : Nat) : String := String.mk (natChars n)

/-- The shape shared by the macro-generated `UidMap` and `GidMap` structs of
`src/id_map.rs` (`inside_id`, `outside_id` are `Uid`/`Gid`, i.e. `u32`;
`count` is `u32`). -/
structure IdMap where
  inside_id : Nat
  outside_id : Nat
  count : Nat
deriving DecidableEq, Repr

abbrev UidMap := IdMap
abbrev GidMap := IdMap

/-- `ToString for UidMap/GidMap`:
`format!("{inside_id} {outside_id} {count}")`. -/
def idMapToString (m : IdMap) : String :=
  natToString m.inside_id ++ " " ++ natToString m.outside_id ++ " "
    ++ natToString m.count

/-- Accumulator-passing helper for `splitWs`; the accumulator holds the
current token reversed. -/
def splitWsAux : List Char → List Char → List (List Char)
  | [], acc => if acc.isEmpty then [] else [acc.reverse]
  | c :: cs, acc =>
    if c.isWhitespace then
      if acc.isEmpty then splitWsAux cs []
      else acc.reverse :: splitWsAux cs []
    else splitWsAux cs (c :: acc)

/-- Model of Rust's `str::split_whitespace`: maximal runs of non-whitespace
characters, empty tokens dropped. -/
def splitWs (cs : List Char) : List (List Char) := splitWsAux cs []

/-- One step of decimal accumulation, `'0'` has code 48. -/
def digitStep (acc : Nat) (c : Char) : Nat := acc * 10 + (c.toNat - 48)

/-- Model of `str::parse::<u32>`: nonempty, all decimal digits, and the value
must fit in `u32` (Rust also accepts a leading `+`, which never arises from
this program's own serializer). -/
def parseU32 (cs : List Char) : Option Nat :=
  if cs.isEmpty then none
  else if cs.all (fun c => c.isDigit) then
    if cs.foldl digitStep 0 < 2 ^ 32 then some (cs.foldl digitStep 0) else none
  else none

/-- `FromStr for UidMap/GidMap`: take the first three whitespace-separated
fields and parse each as `u32`.  A missing field (an `.unwrap()` panic in the
source) or a parse error yields `none`; extra fields are ignored, exactly as
the source only calls `parts.next()` three times. -/
def idMapFromString (s : String) : Option IdMap :=
  match splitWs s.data with
  | a :: b :: c :: _ =>
    match parseU32 a, parseU32 b, parseU32 c with
    | some i, some o, some k => some ⟨i, o, k⟩
    | _, _, _ => none
  | _ => none

/-- `std::sync::mpsc::RecvTimeoutError`. -/
inductive RecvTimeoutError
  | timeout
  | disconnected
deriving DecidableEq, Repr

/-- `AppRun::with_timeout`: the closure runs on a spawned thread while the
caller blocks in `recv_timeout`.  Wall-clock seconds (`f32` in the source)
are modelled as rationals: when the closure's running time exceeds the
timeout the receiver reports a timeout and the thread is abandoned. -/
def with_timeout {α : Type} (timeout duration : Rat) (res : α) :
    Except RecvTimeoutError α :=
  if duration ≤ timeout then Except.ok res
  else Except.error RecvTimeoutError.timeout

/-- The warning/error log messages the claims talk about.  Interpolated
error values (`{e:?}`) are elided from the text. -/
inductive LogMsg
  | unshareFailedPriv
  | unshareFailed
  | errDetail
  | timedOutExistence (name : String)
  | failedExistence (name : String)
  | skippingPath (p : HostPath)
  | failedToMount (name : String)
deriving DecidableEq, Repr

/-- The literal message texts from `src/main.rs` (interpolations elided). -/
def msgText : LogMsg → String
  | LogMsg.unshareFailedPriv =>
    "Failed to create new mount namespace. Did you forget to run me as root?"
  | LogMsg.unshareFailed => "Failed to create new mount namespace."
  | LogMsg.errDetail => "Error:"
  | LogMsg.timedOutExistence _ =>
    "Timed out to check existance. Maybe it is a broken symlink or broken NFS mount?"
  | LogMsg.failedExistence _ => "Failed to check existance."
  | LogMsg.skippingPath _ => "Skipping non-existent or error path"
  | LogMsg.failedToMount _ => "Failed to mount"

/-- One attempted external effect.  Events record attempts; whether the
attempt succeeded is fixed by the `World`. -/
inductive Event
  | unshareCall (newuser newns : Bool)
  | logError (m : LogMsg)
  | logWarn (m : LogMsg)
  | procWrite (file content : String)
  | mountRootSlave
  | mountTmpfs (dir : HostPath)
  | createDirAll (p : HostPath)
  | createFile (p : HostPath)
  | bindMount (src tgt : HostPath)
  | probe (p : HostPath)
  | getCwd
  | chrootTo (p : HostPath)
  | setCwd (p : HostPath)
  | execveCall (entry : HostPath) (args : List String)
deriving DecidableEq, Repr

/-- How a run ends early: an `io::Error` propagated by `?`, or a panic from
an `.unwrap()`. -/
inductive RunErr
  | io
  | panicked
deriving DecidableEq, Repr

/-- Trace of attempted effects together with an early-exit error, if any. -/
abbrev TraceResult := List Event × Option RunErr

/-- The environment of one run: outcome of every syscall, filesystem shape,
and probe timing. -/
structure World where
  euidRoot : Bool
  uid : Nat
  gid : Nat
  unshareFails : Bool
  writeFails : String → Bool
  rootSlaveFails : Bool
  tmpfsFails : Bool
  readRoot : Option (List HostPath)
  isDir : HostPath → Bool
  createDirFails : HostPath → Bool
  createFileFails : HostPath → Bool
  mountFails : HostPath → HostPath → Bool
  probeDuration : HostPath → Rat
  probeResult : HostPath → Except Unit Bool
  currentDir : Option HostPath
  chrootFails : Bool
  setCwdFails : HostPath → Bool
  execFails : Bool

/-- `struct AppRun` from `src/main.rs`: the resolved run configuration. -/
structure AppRun where
  binds : Option (List HostPath)
  nix_dir : HostPath
  mount_dir : HostPath
  entrypoint : HostPath
  args : List String
  new_user_namespace : Bool
  mount_timeout : Rat

def uidMapFile : String := "/proc/self/uid_map"
def setgroupsFile : String := "/proc/self/setgroups"
def gidMapFile : String := "/proc/self/gid_map"

/-- `AppRun::write_id_maps`: write the uid map, then the setgroups deny
directive, then the gid map; each `std::fs::write` aborts the run on failure
via `?`. -/
def write_id_maps (w : World) (uid gid : Nat) : TraceResult :=
  let e1 := Event.procWrite uidMapFile (idMapToString ⟨uid, uid, 1⟩)
  if w.writeFails uidMapFile then ([e1], some RunErr.io)
  else
    let e2 := Event.procWrite setgroupsFile "deny"
    if w.writeFails setgroupsFile then ([e1, e2], some RunErr.io)
    else
      let e3 := Event.procWrite gidMapFile (idMapToString ⟨gid, gid, 1⟩)
      if w.writeFails gidMapFile then ([e1, e2, e3], some RunErr.io)
      else ([e1, e2, e3], none)

/-- `AppRun::rec_bind_mount`: create the mount-point placeholder (a directory
tree via `create_dir_all` when the source is a directory, an empty regular
file via `fs::write` otherwise), then attempt the recursive bind mount with
`MS_BIND | MS_REC | MS_SLAVE | MS_UNBINDABLE`.  A failure of the mount itself
is only logged (`warn!`) and the function still returns `Ok(())`; a failure
to create the placeholder propagates via `?`; `path.file_name().unwrap()`
panics when the path has no final component. -/
def rec_bind_mount (w : World) (path mount_path : HostPath) : TraceResult :=
  match fileName path with
  | none => ([], some RunErr.panicked)
  | some name =>
    if w.isDir path then
      if w.createDirFails mount_path then
        ([Event.createDirAll mount_path], some RunErr.io)
      else if w.mountFails path mount_path then
        ([Event.createDirAll mount_path, Event.bindMount path mount_path,
          Event.logWarn (LogMsg.failedToMount name)], none)
      else
        ([Event.createDirAll mount_path, Event.bindMount path mount_path], none)
    else
      if w.createFileFails mount_path then
        ([Event.createFile mount_path], some RunErr.io)
      else if w.mountFails path mount_path then
        ([Event.createFile mount_path, Event.bindMount path mount_path,
          Event.logWarn (LogMsg.failedToMount name)], none)
      else
        ([Event.createFile mount_path, Event.bindMount path mount_path], none)

/-- One iteration of the bind loop in `AppRun::mounts`: compute the mount
path, silently skip a path whose final component is `"nix"`, probe existence
under the timeout (a timeout or a probe error is logged — with messages
distinguishing the two — and the entry skipped), and otherwise perform the
recursive bind mount. -/
def bindStep (app : AppRun) (w : World) (path : HostPath) : TraceResult :=
  match fileName path with
  | none => ([], some RunErr.panicked)
  | some name =>
    let mount_path := joinPath app.mount_dir name
    if name = "nix" then ([], none)
    else
      match with_timeout app.mount_timeout (w.probeDuration path)
          (w.probeResult path) with
      | Except.error _ =>
        ([Event.probe path, Event.logWarn LogMsg.errDetail,
          Event.logWarn (LogMsg.timedOutExistence name),
          Event.logWarn (LogMsg.skippingPath path)], none)
      | Except.ok (Except.error _) =>
        ([Event.probe path, Event.logWarn LogMsg.errDetail,
          Event.logWarn (LogMsg.failedExistence name),
          Event.logWarn (LogMsg.skippingPath path)], none)
      | Except.ok (Except.ok ex) =>
        if ex then
          match rec_bind_mount w path mount_path with
          | (tr, r) => (Event.probe path :: tr, r)
        else ([Event.probe path, Event.logWarn (LogMsg.skippingPath path)], none)

/-- The `for path in paths_to_bind` loop of `AppRun::mounts`; an `Err` from
`rec_bind_mount` (placeholder creation) aborts via `?`. -/
def bindLoop (app : AppRun) (w : World) : List HostPath → TraceResult
  | [] => ([], none)
  | p :: ps =>
    match bindStep app w p with
    | (tr, some e) => (tr, some e)
    | (tr, none) =>
      match bindLoop app w ps with
      | (tr2, r2) => (tr ++ tr2, r2)

/-- The list the bind loop runs over: the explicit `--bind` list when
supplied, otherwise the enumeration of `/`'s immediate children
(`fs::read_dir("/")?`; `none` models a failure of the enumeration, which
aborts via `?` before any loop iteration). -/
def pathsToBind (app : AppRun) (w : World) : Option (List HostPath) :=
  match app.binds with
  | some bs => some bs
  | none => w.readRoot

/-- Namespace creation at the top of `AppRun::mounts`: one `unshare` call
with `CLONE_NEWUSER | CLONE_NEWNS` when a user namespace is wanted and
`CLONE_NEWNS` alone otherwise.  A rejection is only *logged* — with the
"run me as root" hint exactly when no user namespace was requested — and
execution falls through. -/
def unsharePhase (app : AppRun) (w : World) : List Event :=
  let e0 := Event.unshareCall app.new_user_namespace true
  if w.unshareFails then
    [e0, Event.logError
      (if app.new_user_namespace = false then LogMsg.unshareFailedPriv
       else LogMsg.unshareFailed)]
  else [e0]

/-- The conditional id-map phase of `AppRun::mounts`: `write_id_maps` runs
exactly when the clone flags contained `CLONE_NEWUSER`. -/
def idMapPhase (app : AppRun) (w : World) : TraceResult :=
  if app.new_user_namespace then write_id_maps w w.uid w.gid else ([], none)

/-- `AppRun::mounts` after the id-map phase: remount `/` as `MS_SLAVE |
MS_REC`, mount the tmpfs overlay (both fatal on failure via `?`), run the
bind loop, then merge the nix store by `create_dir_all` plus a recursive
bind mount of `nix_dir` onto `mount_dir/nix`. -/
def mountsRest (app : AppRun) (w : World) : TraceResult :=
  if w.rootSlaveFails then ([Event.mountRootSlave], some RunErr.io)
  else if w.tmpfsFails then
    ([Event.mountRootSlave, Event.mountTmpfs app.mount_dir], some RunErr.io)
  else
    match pathsToBind app w with
    | none =>
      ([Event.mountRootSlave, Event.mountTmpfs app.mount_dir], some RunErr.io)
    | some paths =>
      match bindLoop app w paths with
      | (tr, some e) =>
        (Event.mountRootSlave :: Event.mountTmpfs app.mount_dir :: tr, some e)
      | (tr, none) =>
        let nixMount := joinPath app.mount_dir "nix"
        if w.createDirFails nixMount then
          (Event.mountRootSlave :: Event.mountTmpfs app.mount_dir ::
            (tr ++ [Event.createDirAll nixMount]), some RunErr.io)
        else
          match rec_bind_mount w app.nix_dir nixMount with
          | (tr2, r2) =>
            (Event.mountRootSlave :: Event.mountTmpfs app.mount_dir ::
              (tr ++ Event.createDirAll nixMount :: tr2), r2)

/-- `AppRun::mounts`: unshare (logging only on rejection), conditional
id-map writes (fatal on failure), then the mount sequence. -/
def mounts (app : AppRun) (w : World) : TraceResult :=
  match idMapPhase app w with
  | (tr1, some e) => (unsharePhase app w ++ tr1, some e)
  | (tr1, none) =>
    match mountsRest app w with
    | (tr2, r2) => (unsharePhase app w ++ tr1 ++ tr2, r2)

/-- `AppRun::chroot`: capture the working directory, `chroot` into
`mount_dir`, then `set_current_dir` back to the captured path; every step is
fatal on failure via `?` and there is no fallback directory. -/
def chrootStep (app : AppRun) (w : World) : TraceResult :=
  match w.currentDir with
  | none => ([Event.getCwd], some RunErr.io)
  | some cwd =>
    if w.chrootFails then
      ([Event.getCwd, Event.chrootTo app.mount_dir], some RunErr.io)
    else if w.setCwdFails cwd then
      ([Event.getCwd, Event.chrootTo app.mount_dir, Event.setCwd cwd],
        some RunErr.io)
    else
      ([Event.getCwd, Event.chrootTo app.mount_dir, Event.setCwd cwd], none)

/-- The `if !Uid::effective().is_root() { self.new_user_namespace = true }`
adjustment at the top of `AppRun::exec_in_chroot`. -/
def effectiveApp (app : AppRun) (w : World) : AppRun :=
  if w.euidRoot = false then { app with new_user_namespace := true } else app

/-- The rest of `AppRun::exec_in_chroot` after the privilege adjustment:
`mounts`, `chroot`, and `execve` of the entrypoint (the trace ends at the
`execve` attempt: on success the process image is replaced and nothing
further happens in this program). -/
def execRest (app : AppRun) (w : World) : TraceResult :=
  match mounts app w with
  | (tr1, some e) => (tr1, some e)
  | (tr1, none) =>
    match chrootStep app w with
    | (tr2, some e) => (tr1 ++ tr2, some e)
    | (tr2, none) =>
      let ev := Event.execveCall app.entrypoint app.args
      if w.execFails then (tr1 ++ tr2 ++ [ev], some RunErr.io)
      else (tr1 ++ tr2 ++ [ev], none)

/-- `AppRun::exec_in_chroot`: force a user namespace whenever the effective
uid is not root, then run the mount / chroot / exec sequence. -/
def exec_in_chroot (app : AppRun) (w : World) : TraceResult :=
  execRest (effectiveApp app w) w

/-! ## Event classification helpers -/

/-- Is the event a write to the given kernel control file? -/
def isProcWriteTo (file : String) : Event → Bool
  | Event.procWrite f _ => f == file
  | _ => false

def isProcWrite : Event → Bool
  | Event.procWrite _ _ => true
  | _ => false

/-- A mount-table operation: the rslave remount, the tmpfs mount, or a bind
mount. -/
def isMountOp : Event → Bool
  | Event.mountRootSlave => true
  | Event.mountTmpfs _ => true
  | Event.bindMount _ _ => true
  | _ => false

def isCreateEv : Event → Bool
  | Event.createDirAll _ => true
  | Event.createFile _ => true
  | _ => false

def isBindMountEv : Event → Bool
  | Event.bindMount _ _ => true
  | _ => false

def isUnshareEv : Event → Bool
  | Event.unshareCall _ _ => true
  | _ => false

/-- Events that can appear in `mountsRest` (and inside the bind loop):
everything after the id-map phase. -/
def isRestEvent : Event → Bool
  | Event.mountRootSlave => true
  | Event.mountTmpfs _ => true
  | Event.probe _ => true
  | Event.logWarn _ => true
  | Event.createDirAll _ => true
  | Event.createFile _ => true
  | Event.bindMount _ _ => true
  | _ => false

/-- Every event satisfying `p` occurs strictly before every event satisfying
`q` in the trace. -/
def allBefore (tr : List Event) (p q : Event → Bool) : Prop :=
  ∀ i j (hi : i < tr.length) (hj : j < tr.length),
    p (tr.get ⟨i, hi⟩) = true → q (tr.get ⟨j, hj⟩) = true → i < j

/-- The uid-map write attempt for uid `u` (one line, `u` mapped to itself
with count 1). -/
def uidWriteEv (u : Nat) : Event :=
  Event.procWrite uidMapFile (idMapToString ⟨u, u, 1⟩)

/-- The setgroups write attempt (literal deny directive). -/
def setgroupsWriteEv : Event := Event.procWrite setgroupsFile "deny"

/-- The gid-map write attempt for gid `g`. -/
def gidWriteEv (g : Nat) : Event :=
  Event.procWrite gidMapFile (idMapToString ⟨g, g, 1⟩)

/-! ## Concrete run configurations and worlds (used by witnesses and
counterexamples) -/

/-- A benign world: everything succeeds, probes are instantaneous, the host
root holds `bin`, `etc`, `home`, `nix`. -/
def w0 : World where
  euidRoot := false
  uid := 1000
  gid := 1000
  unshareFails := false
  writeFails := fun _ => false
  rootSlaveFails := false
  tmpfsFails := false
  readRoot := some [["bin"], ["etc"], ["home"], ["nix"]]
  isDir := fun _ => true
  createDirFails := fun _ => false
  createFileFails := fun _ => false
  mountFails := fun _ _ => false
  probeDuration := fun _ => 0
  probeResult := fun _ => Except.ok true
  currentDir := some ["root"]
  chrootFails := false
  setCwdFails := fun _ => false
  execFails := false

/-- A run configuration with a user namespace requested. -/
def appU : AppRun where
  binds := some []
  nix_dir := ["app", "nix"]
  mount_dir := ["mnt"]
  entrypoint := ["app", "entrypoint"]
  args := ["app"]
  new_user_namespace := true
  mount_timeout := 5

/-- A run configuration without a user namespace (privileged caller). -/
def appPriv : AppRun where
  binds := some []
  nix_dir := ["app", "nix"]
  mount_dir := ["mnt"]
  entrypoint := ["app", "entrypoint"]
  args := ["app"]
  new_user_namespace := false
  mount_timeout := 5

/-- Privileged caller whose `unshare` call is rejected; everything else
succeeds. -/
def wUnshareFail : World :=
  { w0 with euidRoot := true, unshareFails := true }

/-- Explicit bind list naming a missing path and an existing one. -/
def appBinds : AppRun :=
  { appPriv with binds := some [["missing"], ["etc"]] }

/-- Privileged world in which `/missing` does not exist but `/etc` does. -/
def wBinds : World :=
  { w0 with
    euidRoot := true
    probeResult := fun p => if p = [("missing" : String)] then Except.ok false
      else Except.ok true }

/-- A world whose existence checks all block for one second. -/
def wSlow : World :=
  { w0 with probeDuration := fun _ => 1 }

/-- A world in which every bind-mount syscall is rejected (placeholder
creation still succeeds). -/
def wMountFail : World :=
  { w0 with mountFails := fun _ _ => true }

/-- Configuration with a very short probe timeout (0.01 s). -/
def appShortTimeout : AppRun :=
  { appU with mount_timeout := mkRat 1 100 }

/-! ## Lemmas: decimal serialization and parsing (id_map.rs) -/

theorem digitChar_facts (m : Nat) (h : m < 10) :
    (Nat.digitChar m).isWhitespace = false ∧ (Nat.digitChar m).isDigit = true ∧
      (Nat.digitChar m).toNat - 48 = m := by
  interval_cases m <;> exact ⟨by decide, by decide, by decide⟩

theorem natCharsAux_spec (n : Nat) : ∀ fuel acc, 1 ≤ fuel → n < 10 ^ fuel →
    natCharsAux fuel n acc = natChars n ++ acc := by
  induction n using Nat.strong_induction_on with
  | _ n ih =>
    intro fuel acc hf hn
    match fuel, hf with
    | f + 1, _ =>
      by_cases h10 : n < 10
      · simp [natCharsAux, natChars, h10]
      · have hn10 : 10 ≤ n := by omega
        have hf1 : 1 ≤ f := by
          by_contra hc
          have : f = 0 := by omega
          subst this
          simp at hn
          omega
        have hdiv : n / 10 < 10 ^ f := by
          have h2 : n < 10 * 10 ^ f := by
            rw [pow_succ] at hn
            omega
          exact Nat.div_lt_of_lt_mul h2
        have hlt : n / 10 < n := Nat.div_lt_self (by omega) (by omega)
        have hself : n < 10 ^ n := Nat.lt_pow_self (by omega) n
        have hdivn : n / 10 < 10 ^ n := lt_trans hlt hself
        rw [natCharsAux, if_neg h10, ih (n / 10) hlt f _ hf1 hdiv]
        conv_rhs =>
          rw [natChars, natCharsAux, if_neg h10,
            ih (n / 10) hlt n _ (by omega) hdivn]
        simp

theorem natChars_lt (n : Nat) (h : n < 10) : natChars n = [Nat.digitChar n] := by
  simp [natChars, natCharsAux, h]

theorem natChars_ge (n : Nat) (h : ¬ n < 10) :
    natChars n = natChars (n / 10) ++ [Nat.digitChar (n % 10)] := by
  have hself : n < 10 ^ n := Nat.lt_pow_self (by omega) n
  have hlt : n / 10 < n := Nat.div_lt_self (by omega) (by omega)
  rw [natChars, natCharsAux, if_neg h,
    natCharsAux_spec (n / 10) n _ (by omega) (lt_trans hlt hself)]

theorem natChars_ne_nil (n : Nat) : natChars n ≠ [] := by
  by_cases h : n < 10
  · rw [natChars_lt n h]; simp
  · rw [natChars_ge n h]; simp

theorem natChars_digits (n : Nat) :
    ∀ c ∈ natChars n, c.isWhitespace = false ∧ c.isDigit = true := by
  induction n using Nat.strong_induction_on with
  | _ n ih =>
    by_cases h : n < 10
    · rw [natChars_lt n h]
      intro c hc
      simp at hc
      subst hc
      exact ⟨(digitChar_facts n h).1, (digitChar_facts n h).2.1⟩
    · rw [natChars_ge n h]
      intro c hc
      rcases List.mem_append.mp hc with hc | hc
      · exact ih (n / 10) (Nat.div_lt_self (by omega) (by omega)) c hc
      · simp at hc
        subst hc
        have hm := digitChar_facts (n % 10) (Nat.mod_lt _ (by omega))
        exact ⟨hm.1, hm.2.1⟩

theorem natChars_foldl (n : Nat) : ∀ acc : Nat,
    (natChars n).foldl digitStep acc = acc * 10 ^ (natChars n).length + n := by
  induction n using Nat.strong_induction_on with
  | _ n ih =>
    intro acc
    by_cases h : n < 10
    · rw [natChars_lt n h]
      simp [digitStep, (digitChar_facts n h).2.2]
    · rw [natChars_ge n h, List.foldl_append,
        ih (n / 10) (Nat.div_lt_self (by omega) (by omega)) acc]
      have hm := (digitChar_facts (n % 10) (Nat.mod_lt _ (by omega))).2.2
      simp only [List.foldl_cons, List.foldl_nil, digitStep, hm,
        List.length_append, List.length_cons, List.length_nil, Nat.zero_add]
      rw [pow_succ, ← Nat.mul_assoc]
      generalize acc * 10 ^ (natChars (n / 10)).length = A
      have hdm := Nat.div_add_mod n 10
      omega

theorem parseU32_natChars (n : Nat) (h : n < 2 ^ 32) :
    parseU32 (natChars n) = some n := by
  unfold parseU32
  rw [if_neg (by simp [natChars_ne_nil n]), if_pos, natChars_foldl n 0]
  · simp only [Nat.zero_mul, Nat.zero_add]
    rw [if_pos h]
  · rw [List.all_eq_true]
    intro c hc
    exact (natChars_digits n c hc).2

theorem splitWsAux_token (rest : List Char) :
    ∀ (t acc : List Char), (∀ c ∈ t, c.isWhitespace = false) →
      (t ≠ [] ∨ acc ≠ []) →
      splitWsAux (t ++ ' ' :: rest) acc = (acc.reverse ++ t) :: splitWsAux rest [] := by
  intro t
  induction t with
  | nil =>
    intro acc hws hne
    have hacc : acc ≠ [] := by
      rcases hne with h | h
      · exact absurd rfl h
      · exact h
    simp [splitWsAux, List.isEmpty_iff, hacc]
  | cons c t ih =>
    intro acc hws hne
    have hc : c.isWhitespace = false := hws c (by simp)
    simp only [List.cons_append, splitWsAux, hc, Bool.false_eq_true, if_false,
      List.append_eq]
    rw [ih (c :: acc) (fun d hd => hws d (by simp [hd])) (Or.inr (by simp))]
    simp

theorem splitWsAux_last :
    ∀ (t acc : List Char), (∀ c ∈ t, c.isWhitespace = false) →
      (t ≠ [] ∨ acc ≠ []) →
      splitWsAux t acc = [acc.reverse ++ t] := by
  intro t
  induction t with
  | nil =>
    intro acc hws hne
    have hacc : acc ≠ [] := by
      rcases hne with h | h
      · exact absurd rfl h
      · exact h
    simp [splitWsAux, List.isEmpty_iff, hacc]
  | cons c t ih =>
    intro acc hws hne
    have hc : c.isWhitespace = false := hws c (by simp)
    simp only [splitWsAux, hc, Bool.false_eq_true, if_false]
    rw [ih (c :: acc) (fun d hd => hws d (by simp [hd])) (Or.inr (by simp))]
    simp

theorem splitWs_three (t1 t2 t3 : List Char)
    (h1 : ∀ c ∈ t1, c.isWhitespace = false) (hn1 : t1 ≠ [])
    (h2 : ∀ c ∈ t2, c.isWhitespace = false) (hn2 : t2 ≠ [])
    (h3 : ∀ c ∈ t3, c.isWhitespace = false) (hn3 : t3 ≠ []) :
    splitWs (t1 ++ ' ' :: (t2 ++ ' ' :: t3)) = [t1, t2, t3] := by
  unfold splitWs
  rw [splitWsAux_token _ t1 [] h1 (Or.inl hn1),
    splitWsAux_token _ t2 [] h2 (Or.inl hn2),
    splitWsAux_last t3 [] h3 (Or.inl hn3)]
  simp

theorem string_data_append (s t : String) : (s ++ t).data = s.data ++ t.data := rfl

theorem idMapToString_data (m : IdMap) :
    (idMapToString m).data =
      natChars m.inside_id ++ ' ' ::
        (natChars m.outside_id ++ ' ' :: natChars m.count) := by
  simp [idMapToString, natToString, string_data_append]

/-! ## Lemmas: trace structure -/

theorem allBefore_split (l1 l2 : List Event) (p q : Event → Bool)
    (h1 : ∀ e ∈ l1, q e = false) (h2 : ∀ e ∈ l2, p e = false) :
    allBefore (l1 ++ l2) p q := by
  intro i j hi hj hp hq
  rw [List.get_eq_getElem] at hp hq
  rcases Nat.lt_or_ge j l1.length with hjl | hjl
  · exfalso
    rw [List.getElem_append_left hjl] at hq
    rw [h1 _ (List.getElem_mem hjl)] at hq
    exact Bool.false_ne_true hq
  · rcases Nat.lt_or_ge i l1.length with hil | hil
    · omega
    · exfalso
      have hbound : i - l1.length < l2.length := by
        rw [List.length_append] at hi
        omega
      rw [List.getElem_append_right hil] at hp
      rw [h2 _ (List.getElem_mem hbound)] at hp
      exact Bool.false_ne_true hp

theorem isProcWriteTo_imp (f : String) {e : Event}
    (h : isProcWriteTo f e = true) : isProcWrite e = true := by
  cases e <;> simp_all [isProcWriteTo, isProcWrite]

theorem isRestEvent_not_procWrite {e : Event} (h : isRestEvent e = true) :
    isProcWrite e = false := by
  cases e <;> simp_all [isRestEvent, isProcWrite]

theorem isRestEvent_not_unshare {e : Event} (h : isRestEvent e = true) :
    isUnshareEv e = false := by
  cases e <;> simp_all [isRestEvent, isUnshareEv]

/-- The trace of `write_id_maps` is the uid write, then possibly the
setgroups write, then possibly the gid write — never in any other shape. -/
theorem write_id_maps_decomp (w : World) (u g : Nat) :
    ∃ w1 w2, (write_id_maps w u g).1 = uidWriteEv u :: (w1 ++ w2) ∧
      (∀ e ∈ w1, e = setgroupsWriteEv) ∧ (∀ e ∈ w2, e = gidWriteEv g) := by
  unfold write_id_maps
  by_cases h1 : w.writeFails uidMapFile
  · exact ⟨[], [], by simp [h1, uidWriteEv], by simp, by simp⟩
  · by_cases h2 : w.writeFails setgroupsFile
    · exact ⟨[setgroupsWriteEv], [],
        by simp [h1, h2, uidWriteEv, setgroupsWriteEv], by simp, by simp⟩
    · by_cases h3 : w.writeFails gidMapFile
      · exact ⟨[setgroupsWriteEv], [gidWriteEv g],
          by simp [h1, h2, h3, uidWriteEv, setgroupsWriteEv, gidWriteEv],
          by simp, by simp⟩
      · exact ⟨[setgroupsWriteEv], [gidWriteEv g],
          by simp [h1, h2, h3, uidWriteEv, setgroupsWriteEv, gidWriteEv],
          by simp, by simp⟩

theorem unsharePhase_events (app : AppRun) (w : World) :
    ∀ e ∈ unsharePhase app w,
      isProcWrite e = false ∧ isMountOp e = false ∧
        (isUnshareEv e = true →
          e = Event.unshareCall app.new_user_namespace true) := by
  unfold unsharePhase
  by_cases h : w.unshareFails <;>
    simp [h, isProcWrite, isMountOp, isUnshareEv]

/-- The first event of `unsharePhase` is the single `unshare` attempt. -/
theorem unsharePhase_head (app : AppRun) (w : World) :
    ∃ rest, unsharePhase app w =
      Event.unshareCall app.new_user_namespace true :: rest := by
  unfold unsharePhase
  by_cases h : w.unshareFails
  · exact ⟨[Event.logError (if app.new_user_namespace = false
      then LogMsg.unshareFailedPriv else LogMsg.unshareFailed)], by simp [h]⟩
  · exact ⟨[], by simp [h]⟩

theorem rec_bind_mount_events (w : World) (p m : HostPath) :
    ∀ e ∈ (rec_bind_mount w p m).1, isRestEvent e = true := by
  unfold rec_bind_mount
  cases hf : fileName p with
  | none => simp
  | some name =>
    by_cases h1 : w.isDir p <;> by_cases h2 : w.createDirFails m <;>
      by_cases h3 : w.createFileFails m <;> by_cases h4 : w.mountFails p m <;>
        simp [h1, h2, h3, h4, isRestEvent]

theorem bindStep_events (app : AppRun) (w : World) (p : HostPath) :
    ∀ e ∈ (bindStep app w p).1, isRestEvent e = true := by
  unfold bindStep
  cases hf : fileName p with
  | none => simp
  | some name =>
    by_cases hn : name = "nix"
    · simp [hn]
    · rcases hwt : with_timeout app.mount_timeout (w.probeDuration p)
        (w.probeResult p) with er | v
      · simp [hn, isRestEvent]
      · rcases v with er2 | b
        · simp [hn, isRestEvent]
        · cases b with
          | false => simp [hn, isRestEvent]
          | true =>
            rcases hrb : rec_bind_mount w p (joinPath app.mount_dir name)
              with ⟨tr, r⟩
            have hre := rec_bind_mount_events w p (joinPath app.mount_dir name)
            rw [hrb] at hre
            simp only [hn, if_false, hrb]
            intro e he
            simp at he
            rcases he with he | he
            · subst he; rfl
            · exact hre e he

theorem bindLoop_events (app : AppRun) (w : World) (ps : List HostPath) :
    ∀ e ∈ (bindLoop app w ps).1, isRestEvent e = true := by
  induction ps with
  | nil => simp [bindLoop]
  | cons p ps ih =>
    have hstep := bindStep_events app w p
    rcases hs : bindStep app w p with ⟨tr, r⟩
    rw [hs] at hstep
    cases r with
    | some e =>
      simp only [bindLoop, hs]
      exact hstep
    | none =>
      rcases hl : bindLoop app w ps with ⟨tr2, r2⟩
      rw [hl] at ih
      simp only [bindLoop, hs, hl]
      intro e he
      rcases List.mem_append.mp he with he | he
      · exact hstep e he
      · exact ih e he

theorem mountsRest_events (app : AppRun) (w : World) :
    ∀ e ∈ (mountsRest app w).1, isRestEvent e = true := by
  unfold mountsRest
  by_cases h1 : w.rootSlaveFails
  · simp [h1, isRestEvent]
  · by_cases h2 : w.tmpfsFails
    · simp [h1, h2, isRestEvent]
    · cases hp : pathsToBind app w with
      | none => simp [h1, h2, isRestEvent]
      | some paths =>
        have hloop := bindLoop_events app w paths
        rcases hl : bindLoop app w paths with ⟨tr, r⟩
        rw [hl] at hloop
        cases r with
        | some e =>
          simp only [h1, h2, if_false, hl]
          intro e2 he2
          simp at he2
          rcases he2 with he2 | he2 | he2
          · subst he2; rfl
          · subst he2; rfl
          · exact hloop e2 he2
        | none =>
          by_cases h3 : w.createDirFails (joinPath app.mount_dir "nix")
          · simp only [h1, h2, if_false, hl, h3]
            intro e2 he2
            simp at he2
            rcases he2 with he2 | he2 | he2 | he2
            · subst he2; rfl
            · subst he2; rfl
            · exact hloop e2 he2
            · subst he2; rfl
          · have hrbe := rec_bind_mount_events w app.nix_dir
              (joinPath app.mount_dir "nix")
            rcases hrb : rec_bind_mount w app.nix_dir
              (joinPath app.mount_dir "nix") with ⟨tr2, r2⟩
            rw [hrb] at hrbe
            simp only [h1, h2, if_false, hl, h3, hrb]
            intro e2 he2
            simp at he2
            rcases he2 with he2 | he2 | he2 | he2 | he2
            · subst he2; rfl
            · subst he2; rfl
            · exact hloop e2 he2
            · subst he2; rfl
            · exact hrbe e2 he2

/-- Every branch of `mountsRest` starts by attempting the rslave remount of
`/`. -/
theorem mountsRest_head (app : AppRun) (w : World) :
    ∃ rest, (mountsRest app w).1 = Event.mountRootSlave :: rest := by
  unfold mountsRest
  by_cases h1 : w.rootSlaveFails
  · exact ⟨[], by simp [h1]⟩
  · by_cases h2 : w.tmpfsFails
    · exact ⟨[Event.mountTmpfs app.mount_dir], by simp [h1, h2]⟩
    · cases hp : pathsToBind app w with
      | none => exact ⟨[Event.mountTmpfs app.mount_dir], by simp [h1, h2, hp]⟩
      | some paths =>
        rcases hl : bindLoop app w paths with ⟨tr, r⟩
        cases r with
        | some e =>
          exact ⟨Event.mountTmpfs app.mount_dir :: tr, by simp [h1, h2, hp, hl]⟩
        | none =>
          by_cases h3 : w.createDirFails (joinPath app.mount_dir "nix")
          · exact ⟨Event.mountTmpfs app.mount_dir ::
              (tr ++ [Event.createDirAll (joinPath app.mount_dir "nix")]),
              by simp [h1, h2, hp, hl, h3]⟩
          · rcases hrb : rec_bind_mount w app.nix_dir
              (joinPath app.mount_dir "nix") with ⟨tr2, r2⟩
            exact ⟨Event.mountTmpfs app.mount_dir ::
              (tr ++ Event.createDirAll (joinPath app.mount_dir "nix") :: tr2),
              by simp [h1, h2, hp, hl, h3, hrb]⟩

/-- `mounts` decomposes as the unshare phase, the id-map phase, and a tail
containing only post-id-map events. -/
theorem mounts_decomp (app : AppRun) (w : World) :
    ∃ tail, (mounts app w).1 =
        unsharePhase app w ++ (idMapPhase app w).1 ++ tail ∧
      ∀ e ∈ tail, isRestEvent e = true := by
  unfold mounts
  rcases hI : idMapPhase app w with ⟨tr1, r1⟩
  cases r1 with
  | some e => exact ⟨[], by simp [hI], by simp⟩
  | none =>
    rcases hR : mountsRest app w with ⟨tr2, r2⟩
    refine ⟨tr2, by simp [hI, hR], ?_⟩
    have := mountsRest_events app w
    rw [hR] at this
    exact this

theorem not_procWrite_to (f : String) {e : Event} (h : isProcWrite e = false) :
    isProcWriteTo f e = false := by
  cases e <;> simp_all [isProcWrite, isProcWriteTo]

theorem procWrite_not_unshare {e : Event} (h : isProcWrite e = true) :
    isUnshareEv e = false := by
  cases e <;> simp_all [isProcWrite, isUnshareEv]

theorem idMapPhase_events (app : AppRun) (w : World) :
    ∀ e ∈ (idMapPhase app w).1, isProcWrite e = true := by
  unfold idMapPhase
  by_cases h : app.new_user_namespace
  · simp only [h, if_true]
    obtain ⟨w1, w2, hW, hw1, hw2⟩ := write_id_maps_decomp w w.uid w.gid
    rw [hW]
    intro e he
    rcases List.mem_cons.mp he with he | he
    · subst he; rfl
    · rcases List.mem_append.mp he with he | he
      · rw [hw1 e he]; rfl
      · rw [hw2 e he]; rfl
  · simp [h]

theorem chrootStep_events (app : AppRun) (w : World) :
    ∀ e ∈ (chrootStep app w).1, isUnshareEv e = false := by
  unfold chrootStep
  cases hc : w.currentDir with
  | none => simp [isUnshareEv]
  | some cwd =>
    by_cases h1 : w.chrootFails <;> by_cases h2 : w.setCwdFails cwd <;>
      simp [h1, h2, isUnshareEv]

/-- `execRest` is the `mounts` trace followed only by chroot/exec events. -/
theorem execRest_decomp (app : AppRun) (w : World) :
    ∃ tail, (execRest app w).1 = (mounts app w).1 ++ tail ∧
      ∀ e ∈ tail, isUnshareEv e = false := by
  unfold execRest
  rcases hm : mounts app w with ⟨tr1, r1⟩
  cases r1 with
  | some e => exact ⟨[], by simp [hm], by simp⟩
  | none =>
    have hce := chrootStep_events app w
    rcases hc : chrootStep app w with ⟨tr2, r2⟩
    rw [hc] at hce
    cases r2 with
    | some e => exact ⟨tr2, by simp [hm, hc], hce⟩
    | none =>
      by_cases hx : w.execFails
      · refine ⟨tr2 ++ [Event.execveCall app.entrypoint app.args],
          by simp [hm, hc, hx], ?_⟩
        intro e he
        rcases List.mem_append.mp he with he | he
        · exact hce e he
        · simp at he; subst he; rfl
      · refine ⟨tr2 ++ [Event.execveCall app.entrypoint app.args],
          by simp [hm, hc, hx], ?_⟩
        intro e he
        rcases List.mem_append.mp he with he | he
        · exact hce e he
        · simp at he; subst he; rfl

/-- The only `unshare` attempt in a `mounts` trace carries exactly the
configured flags: user namespace iff requested, mount namespace always. -/
theorem mounts_unshare_events (app : AppRun) (w : World) :
    ∀ e ∈ (mounts app w).1, isUnshareEv e = true →
      e = Event.unshareCall app.new_user_namespace true := by
  obtain ⟨tail, htr, htail⟩ := mounts_decomp app w
  intro e he hu
  rw [htr] at he
  rcases List.mem_append.mp he with he | he
  · rcases List.mem_append.mp he with he | he
    · exact (unsharePhase_events app w e he).2.2 hu
    · rw [procWrite_not_unshare (idMapPhase_events app w e he)] at hu
      exact absurd hu (by simp)
  · rw [isRestEvent_not_unshare (htail e he)] at hu
    exact absurd hu (by simp)

theorem effectiveApp_unprivileged (app : AppRun) (w : World)
    (h : w.euidRoot = false) :
    effectiveApp app w = { app with new_user_namespace := true } := by
  simp [effectiveApp, h]

theorem effectiveApp_privileged (app : AppRun) (w : World)
    (h : w.euidRoot = true) : effectiveApp app w = app := by
  simp [effectiveApp, h]

/-! ## Claim theorems -/

/-- C3: on every code path that creates a user namespace, the three kernel
control-file writes occur in the fixed order uid-map (one line mapping the
current uid to itself with count 1), then the setgroups deny directive, then
the gid-map (same shape for the gid), and all three happen before any mount
operation in the new namespace. -/
theorem userns_idmap_write_order (app : AppRun) (w : World)
    (h : app.new_user_namespace = true) :
    allBefore (mounts app w).1 (isProcWriteTo uidMapFile)
      (isProcWriteTo setgroupsFile) ∧
    allBefore (mounts app w).1 (isProcWriteTo setgroupsFile)
      (isProcWriteTo gidMapFile) ∧
    allBefore (mounts app w).1 isProcWrite isMountOp ∧
    (∀ c, Event.procWrite uidMapFile c ∈ (mounts app w).1 →
      c = idMapToString ⟨w.uid, w.uid, 1⟩) ∧
    (∀ c, Event.procWrite setgroupsFile c ∈ (mounts app w).1 → c = "deny") ∧
    (∀ c, Event.procWrite gidMapFile c ∈ (mounts app w).1 →
      c = idMapToString ⟨w.gid, w.gid, 1⟩) := by
  obtain ⟨tail, htr, htail⟩ := mounts_decomp app w
  have hph : (idMapPhase app w).1 = (write_id_maps w w.uid w.gid).1 := by
    simp [idMapPhase, h]
  obtain ⟨w1, w2, hW, hw1, hw2⟩ := write_id_maps_decomp w w.uid w.gid
  rw [hph, hW] at htr
  have hU := unsharePhase_events app w
  refine ⟨?_, ?_, ?_, ?_, ?_, ?_⟩
  · rw [htr]
    have heq : (unsharePhase app w ++ (uidWriteEv w.uid :: (w1 ++ w2))) ++ tail
        = (unsharePhase app w ++ [uidWriteEv w.uid]) ++ ((w1 ++ w2) ++ tail) := by
      simp
    rw [heq]
    apply allBefore_split
    · intro e he
      rcases List.mem_append.mp he with he | he
      · exact not_procWrite_to _ (hU e he).1
      · simp at he; subst he; rfl
    · intro e he
      rcases List.mem_append.mp he with he | he
      · rcases List.mem_append.mp he with he | he
        · rw [hw1 e he]; rfl
        · rw [hw2 e he]; rfl
      · exact not_procWrite_to _ (isRestEvent_not_procWrite (htail e he))
  · rw [htr]
    have heq : (unsharePhase app w ++ (uidWriteEv w.uid :: (w1 ++ w2))) ++ tail
        = ((unsharePhase app w ++ [uidWriteEv w.uid]) ++ w1) ++ (w2 ++ tail) := by
      simp
    rw [heq]
    apply allBefore_split
    · intro e he
      rcases List.mem_append.mp he with he | he
      · rcases List.mem_append.mp he with he | he
        · exact not_procWrite_to _ (hU e he).1
        · simp at he; subst he; rfl
      · rw [hw1 e he]; rfl
    · intro e he
      rcases List.mem_append.mp he with he | he
      · rw [hw2 e he]; rfl
      · exact not_procWrite_to _ (isRestEvent_not_procWrite (htail e he))
  · rw [htr]
    apply allBefore_split
    · intro e he
      rcases List.mem_append.mp he with he | he
      · exact (hU e he).2.1
      · rcases List.mem_cons.mp he with he | he
        · subst he; rfl
        · rcases List.mem_append.mp he with he | he
          · rw [hw1 e he]; rfl
          · rw [hw2 e he]; rfl
    · intro e he
      exact isRestEvent_not_procWrite (htail e he)
  · intro c hc
    rw [htr] at hc
    rcases List.mem_append.mp hc with hc | hc
    · rcases List.mem_append.mp hc with hc | hc
      · have := (hU _ hc).1
        simp [isProcWrite] at this
      · rcases List.mem_cons.mp hc with hc | hc
        · simp [uidWriteEv] at hc
          exact hc
        · rcases List.mem_append.mp hc with hc | hc
          · have := hw1 _ hc
            simp [setgroupsWriteEv, uidMapFile, setgroupsFile] at this
          · have := hw2 _ hc
            simp [gidWriteEv, uidMapFile, gidMapFile] at this
    · have := htail _ hc
      simp [isRestEvent] at this
  · intro c hc
    rw [htr] at hc
    rcases List.mem_append.mp hc with hc | hc
    · rcases List.mem_append.mp hc with hc | hc
      · have := (hU _ hc).1
        simp [isProcWrite] at this
      · rcases List.mem_cons.mp hc with hc | hc
        · simp [uidWriteEv, setgroupsFile, uidMapFile] at hc
        · rcases List.mem_append.mp hc with hc | hc
          · have := hw1 _ hc
            simp [setgroupsWriteEv] at this
            exact this
          · have := hw2 _ hc
            simp [gidWriteEv, setgroupsFile, gidMapFile] at this
    · have := htail _ hc
      simp [isRestEvent] at this
  · intro c hc
    rw [htr] at hc
    rcases List.mem_append.mp hc with hc | hc
    · rcases List.mem_append.mp hc with hc | hc
      · have := (hU _ hc).1
        simp [isProcWrite] at this
      · rcases List.mem_cons.mp hc with hc | hc
        · simp [uidWriteEv, gidMapFile, uidMapFile] at hc
        · rcases List.mem_append.mp hc with hc | hc
          · have := hw1 _ hc
            simp [setgroupsWriteEv, gidMapFile, setgroupsFile] at this
          · have := hw2 _ hc
            simp [gidWriteEv] at this
            exact this
    · have := htail _ hc
      simp [isRestEvent] at this

/-- Witness for `userns_idmap_write_order` at a concrete configuration. -/
theorem userns_idmap_write_order_witness :
    appU.new_user_namespace = true ∧
    (allBefore (mounts appU w0).1 (isProcWriteTo uidMapFile)
      (isProcWriteTo setgroupsFile) ∧
    allBefore (mounts appU w0).1 (isProcWriteTo setgroupsFile)
      (isProcWriteTo gidMapFile) ∧
    allBefore (mounts appU w0).1 isProcWrite isMountOp ∧
    (∀ c, Event.procWrite uidMapFile c ∈ (mounts appU w0).1 →
      c = idMapToString ⟨w0.uid, w0.uid, 1⟩) ∧
    (∀ c, Event.procWrite setgroupsFile c ∈ (mounts appU w0).1 → c = "deny") ∧
    (∀ c, Event.procWrite gidMapFile c ∈ (mounts appU w0).1 →
      c = idMapToString ⟨w0.gid, w0.gid, 1⟩)) :=
  ⟨rfl, userns_idmap_write_order appU w0 rfl⟩

/-- C5: whenever the effective caller is not root, the run requests the
combined mount-plus-user namespace: its one `unshare` attempt carries both
flags, and no mount-only `unshare` attempt occurs anywhere in the trace. -/
theorem unprivileged_requests_userns (app : AppRun) (w : World)
    (h : w.euidRoot = false) :
    (∃ rest, (exec_in_chroot app w).1 = Event.unshareCall true true :: rest) ∧
    ∀ u n, Event.unshareCall u n ∈ (exec_in_chroot app w).1 →
      u = true ∧ n = true := by
  have hnu : (effectiveApp app w).new_user_namespace = true := by
    rw [effectiveApp_unprivileged app w h]
  obtain ⟨tail, htr, htail⟩ := execRest_decomp (effectiveApp app w) w
  constructor
  · obtain ⟨tail2, htr2, _⟩ := mounts_decomp (effectiveApp app w) w
    obtain ⟨rest0, hU⟩ := unsharePhase_head (effectiveApp app w) w
    rw [hnu] at hU
    refine ⟨rest0 ++ (idMapPhase (effectiveApp app w) w).1 ++ tail2 ++ tail, ?_⟩
    show (execRest (effectiveApp app w) w).1 = _
    rw [htr, htr2, hU]
    simp
  · intro u n hmem
    have hmem2 : Event.unshareCall u n ∈ (execRest (effectiveApp app w) w).1 :=
      hmem
    rw [htr] at hmem2
    rcases List.mem_append.mp hmem2 with hm | hm
    · have := mounts_unshare_events (effectiveApp app w) w _ hm rfl
      rw [hnu] at this
      injection this with h1 h2
      exact ⟨h1, h2⟩
    · have := htail _ hm
      simp [isUnshareEv] at this

/-- Witness for `unprivileged_requests_userns`. -/
theorem unprivileged_requests_userns_witness :
    w0.euidRoot = false ∧
    ((∃ rest, (exec_in_chroot appPriv w0).1 =
        Event.unshareCall true true :: rest) ∧
    ∀ u n, Event.unshareCall u n ∈ (exec_in_chroot appPriv w0).1 →
      u = true ∧ n = true) :=
  ⟨rfl, unprivileged_requests_userns appPriv w0 rfl⟩

/-- C1 (amended): when the kernel rejects the namespace-creation request and
no user namespace was requested, the run logs a fatal-looking error whose
message hints the caller is likely not running with sufficient privilege —
but it does *not* abort: the very next attempted operation is the rslave
remount, and the run carries on. -/
theorem unshare_reject_priv_logs_and_continues (app : AppRun) (w : World)
    (hr : w.euidRoot = true) (h1 : app.new_user_namespace = false)
    (h2 : w.unshareFails = true) :
    (∃ rest, (exec_in_chroot app w).1 = Event.unshareCall false true ::
      Event.logError LogMsg.unshareFailedPriv ::
      Event.mountRootSlave :: rest) ∧
    msgText LogMsg.unshareFailedPriv =
      "Failed to create new mount namespace. Did you forget to run me as root?" := by
  refine ⟨?_, rfl⟩
  have happ := effectiveApp_privileged app w hr
  obtain ⟨tail, htr, _⟩ := execRest_decomp (effectiveApp app w) w
  have hU : unsharePhase (effectiveApp app w) w =
      [Event.unshareCall false true, Event.logError LogMsg.unshareFailedPriv] := by
    rw [happ]
    simp [unsharePhase, h1, h2]
  have hph : idMapPhase (effectiveApp app w) w = ([], none) := by
    rw [happ]
    simp [idMapPhase, h1]
  have hmounts : mounts (effectiveApp app w) w =
      (unsharePhase (effectiveApp app w) w ++ [] ++
        (mountsRest (effectiveApp app w) w).1,
       (mountsRest (effectiveApp app w) w).2) := by
    unfold mounts
    rw [hph]
  obtain ⟨rest2, hR⟩ := mountsRest_head (effectiveApp app w) w
  refine ⟨rest2 ++ tail, ?_⟩
  show (execRest (effectiveApp app w) w).1 = _
  rw [htr, hmounts]
  simp only
  rw [hU, hR]
  simp

/-- Witness for `unshare_reject_priv_logs_and_continues`. -/
theorem unshare_reject_priv_witness :
    wUnshareFail.euidRoot = true ∧ appPriv.new_user_namespace = false ∧
    wUnshareFail.unshareFails = true ∧
    ((∃ rest, (exec_in_chroot appPriv wUnshareFail).1 =
        Event.unshareCall false true ::
        Event.logError LogMsg.unshareFailedPriv ::
        Event.mountRootSlave :: rest) ∧
    msgText LogMsg.unshareFailedPriv =
      "Failed to create new mount namespace. Did you forget to run me as root?") :=
  ⟨rfl, rfl, rfl,
    unshare_reject_priv_logs_and_continues appPriv wUnshareFail rfl rfl rfl⟩

/-- C1 counterexample: a privileged run whose `unshare` is rejected does
*not* fail fatally — it completes with no error, and the subsequent rslave
remount, chroot, and exec attempts all still happen. -/
theorem unshare_reject_counterexample :
    (exec_in_chroot appPriv wUnshareFail).2 = none ∧
    Event.mountRootSlave ∈ (exec_in_chroot appPriv wUnshareFail).1 ∧
    Event.chrootTo appPriv.mount_dir ∈ (exec_in_chroot appPriv wUnshareFail).1 ∧
    Event.execveCall appPriv.entrypoint appPriv.args ∈
      (exec_in_chroot appPriv wUnshareFail).1 := by
  decide

/-- C2 (amended): a path in the explicit bind list whose existence probe
reports "does not exist" is skipped with a warning — no mount of that entry
is attempted and no error is raised — and the loop continues over the
remaining entries unchanged. -/
theorem missing_bind_source_skipped (app : AppRun) (w : World) (p : HostPath)
    (n : String) (hn : fileName p = some n) (hnix : ¬ n = "nix")
    (hprobe : with_timeout app.mount_timeout (w.probeDuration p)
      (w.probeResult p) = Except.ok (Except.ok false)) :
    bindStep app w p =
      ([Event.probe p, Event.logWarn (LogMsg.skippingPath p)], none) ∧
    ∀ ps, bindLoop app w (p :: ps) =
      (Event.probe p :: Event.logWarn (LogMsg.skippingPath p) ::
        (bindLoop app w ps).1, (bindLoop app w ps).2) := by
  have hstep : bindStep app w p =
      ([Event.probe p, Event.logWarn (LogMsg.skippingPath p)], none) := by
    unfold bindStep
    rw [hn]
    simp only [if_neg hnix]
    rw [hprobe]
    rfl
  refine ⟨hstep, fun ps => ?_⟩
  simp only [bindLoop, hstep]
  rcases hl : bindLoop app w ps with ⟨tr, r⟩
  simp

/-- Witness for `missing_bind_source_skipped` at the explicit list
`["/missing", "/etc"]`. -/
theorem missing_bind_source_skipped_witness :
    fileName [("missing" : String)] = some "missing" ∧ ¬ "missing" = "nix" ∧
    with_timeout appBinds.mount_timeout (wBinds.probeDuration ["missing"])
      (wBinds.probeResult ["missing"]) = Except.ok (Except.ok false) ∧
    (bindStep appBinds wBinds ["missing"] =
      ([Event.probe ["missing"],
        Event.logWarn (LogMsg.skippingPath ["missing"])], none) ∧
    ∀ ps, bindLoop appBinds wBinds (["missing"] :: ps) =
      (Event.probe ["missing"] ::
        Event.logWarn (LogMsg.skippingPath ["missing"]) ::
        (bindLoop appBinds wBinds ps).1, (bindLoop appBinds wBinds ps).2)) :=
  ⟨rfl, by decide, by decide,
    missing_bind_source_skipped appBinds wBinds ["missing"] "missing"
      rfl (by decide) (by decide)⟩

/-- C2 counterexample: with the explicit bind list `["/missing", "/etc"]`
where `/missing` does not exist, the run does *not* abort with a not-found
error — it finishes the mount phase successfully and still bind-mounts the
listed `/etc`, refuting both the abort and the all-or-nothing reading. -/
theorem missing_bind_source_counterexample :
    (mounts appBinds wBinds).2 = none ∧
    Event.bindMount ["etc"] ["mnt", "etc"] ∈ (mounts appBinds wBinds).1 ∧
    Event.logWarn (LogMsg.skippingPath ["missing"]) ∈
      (mounts appBinds wBinds).1 := by
  decide

/-- C4: a probe that does not complete within the timeout, or that completes
with an error, makes the entry count as "does not exist": it is skipped with
warnings distinguishing the two cases, the step raises no error, and no
mount of the entry is attempted.  In particular a 0.01 s timeout against a
check blocking for 1 s yields a timeout, not `true`. -/
theorem probe_timeout_or_error_soft_fails (app : AppRun) (w : World)
    (p : HostPath) (n : String) (hn : fileName p = some n)
    (hnix : ¬ n = "nix") :
    (∀ er, with_timeout app.mount_timeout (w.probeDuration p)
        (w.probeResult p) = Except.error er →
      bindStep app w p = ([Event.probe p, Event.logWarn LogMsg.errDetail,
        Event.logWarn (LogMsg.timedOutExistence n),
        Event.logWarn (LogMsg.skippingPath p)], none)) ∧
    (∀ er, with_timeout app.mount_timeout (w.probeDuration p)
        (w.probeResult p) = Except.ok (Except.error er) →
      bindStep app w p = ([Event.probe p, Event.logWarn LogMsg.errDetail,
        Event.logWarn (LogMsg.failedExistence n),
        Event.logWarn (LogMsg.skippingPath p)], none)) ∧
    with_timeout (mkRat 1 100) 1 (Except.ok true : Except Unit Bool) =
      Except.error RecvTimeoutError.timeout := by
  refine ⟨?_, ?_, by decide⟩
  · intro er hwt
    unfold bindStep
    rw [hn]
    simp only [if_neg hnix]
    rw [hwt]
  · intro er hwt
    unfold bindStep
    rw [hn]
    simp only [if_neg hnix]
    rw [hwt]

/-- Witness for `probe_timeout_or_error_soft_fails`: timeout 0.01 s, check
blocking 1 s. -/
theorem probe_timeout_soft_fails_witness :
    fileName [("proc" : String)] = some "proc" ∧ ¬ "proc" = "nix" ∧
    ((∀ er, with_timeout appShortTimeout.mount_timeout
        (wSlow.probeDuration ["proc"]) (wSlow.probeResult ["proc"]) =
          Except.error er →
      bindStep appShortTimeout wSlow ["proc"] =
        ([Event.probe ["proc"], Event.logWarn LogMsg.errDetail,
          Event.logWarn (LogMsg.timedOutExistence "proc"),
          Event.logWarn (LogMsg.skippingPath ["proc"])], none)) ∧
    (∀ er, with_timeout appShortTimeout.mount_timeout
        (wSlow.probeDuration ["proc"]) (wSlow.probeResult ["proc"]) =
          Except.ok (Except.error er) →
      bindStep appShortTimeout wSlow ["proc"] =
        ([Event.probe ["proc"], Event.logWarn LogMsg.errDetail,
          Event.logWarn (LogMsg.failedExistence "proc"),
          Event.logWarn (LogMsg.skippingPath ["proc"])], none)) ∧
    with_timeout (mkRat 1 100) 1 (Except.ok true : Except Unit Bool) =
      Except.error RecvTimeoutError.timeout) :=
  ⟨rfl, by decide,
    probe_timeout_or_error_soft_fails appShortTimeout wSlow ["proc"] "proc"
      rfl (by decide)⟩

/-- C6: `rec_bind_mount` always creates the target placeholder first — a
directory (recursively) when the source is a directory, an empty regular
file otherwise — and only afterwards attempts the bind mount. -/
theorem bind_creates_placeholder_first (w : World) (p m : HostPath)
    (n : String) (hn : fileName p = some n) :
    (w.isDir p = true →
      ∃ rest, (rec_bind_mount w p m).1 = Event.createDirAll m :: rest) ∧
    (w.isDir p = false →
      ∃ rest, (rec_bind_mount w p m).1 = Event.createFile m :: rest) ∧
    allBefore (rec_bind_mount w p m).1 isCreateEv isBindMountEv := by
  have htr : (rec_bind_mount w p m).1 =
      (if w.isDir p = true then Event.createDirAll m else Event.createFile m) ::
        (if (if w.isDir p = true then w.createDirFails m
            else w.createFileFails m) = true then []
         else if w.mountFails p m = true
           then [Event.bindMount p m, Event.logWarn (LogMsg.failedToMount n)]
           else [Event.bindMount p m]) := by
    unfold rec_bind_mount
    rw [hn]
    by_cases h1 : w.isDir p = true <;> by_cases h2 : w.createDirFails m = true <;>
      by_cases h3 : w.createFileFails m = true <;>
        by_cases h4 : w.mountFails p m = true <;> simp [h1, h2, h3, h4]
  refine ⟨?_, ?_, ?_⟩
  · intro hd
    refine ⟨(if (if w.isDir p = true then w.createDirFails m
        else w.createFileFails m) = true then []
      else if w.mountFails p m = true
        then [Event.bindMount p m, Event.logWarn (LogMsg.failedToMount n)]
        else [Event.bindMount p m]), ?_⟩
    rw [htr, if_pos hd]
  · intro hd
    refine ⟨(if (if w.isDir p = true then w.createDirFails m
        else w.createFileFails m) = true then []
      else if w.mountFails p m = true
        then [Event.bindMount p m, Event.logWarn (LogMsg.failedToMount n)]
        else [Event.bindMount p m]), ?_⟩
    rw [htr, if_neg (by simp [hd])]
  · rw [htr]
    have hsp := allBefore_split
      [if w.isDir p = true then Event.createDirAll m else Event.createFile m]
      (if (if w.isDir p = true then w.createDirFails m
          else w.createFileFails m) = true then []
       else if w.mountFails p m = true
         then [Event.bindMount p m, Event.logWarn (LogMsg.failedToMount n)]
         else [Event.bindMount p m])
      isCreateEv isBindMountEv
      (by
        intro e he
        simp at he
        subst he
        by_cases h1 : w.isDir p = true <;> simp [h1, isBindMountEv])
      (by
        by_cases hcf : (if w.isDir p = true then w.createDirFails m
            else w.createFileFails m) = true <;>
          by_cases h4 : w.mountFails p m = true <;>
            simp [hcf, h4, isCreateEv])
    simpa using hsp

/-- Witness for `bind_creates_placeholder_first`. -/
theorem bind_creates_placeholder_first_witness :
    fileName [("etc" : String)] = some "etc" ∧
    ((w0.isDir ["etc"] = true →
      ∃ rest, (rec_bind_mount w0 ["etc"] ["mnt", "etc"]).1 =
        Event.createDirAll ["mnt", "etc"] :: rest) ∧
    (w0.isDir ["etc"] = false →
      ∃ rest, (rec_bind_mount w0 ["etc"] ["mnt", "etc"]).1 =
        Event.createFile ["mnt", "etc"] :: rest) ∧
    allBefore (rec_bind_mount w0 ["etc"] ["mnt", "etc"]).1
      isCreateEv isBindMountEv) :=
  ⟨rfl, bind_creates_placeholder_first w0 ["etc"] ["mnt", "etc"] "etc" rfl⟩

/-- C7: failure of the bind-mount syscall itself is logged as a warning and
is non-fatal — `rec_bind_mount` still returns success. -/
theorem bind_mount_failure_nonfatal (w : World) (p m : HostPath) (n : String)
    (hn : fileName p = some n)
    (hcreate : (if w.isDir p = true then w.createDirFails m
      else w.createFileFails m) = false)
    (hm : w.mountFails p m = true) :
    (rec_bind_mount w p m).2 = none ∧
    Event.logWarn (LogMsg.failedToMount n) ∈ (rec_bind_mount w p m).1 := by
  unfold rec_bind_mount
  rw [hn]
  by_cases h1 : w.isDir p = true
  · rw [if_pos h1] at hcreate
    simp [h1, hcreate, hm]
  · rw [if_neg h1] at hcreate
    simp [h1, hcreate, hm]

/-- Witness for `bind_mount_failure_nonfatal`. -/
theorem bind_mount_failure_nonfatal_witness :
    fileName [("dev" : String)] = some "dev" ∧
    (if wMountFail.isDir ["dev"] = true
      then wMountFail.createDirFails ["mnt", "dev"]
      else wMountFail.createFileFails ["mnt", "dev"]) = false ∧
    wMountFail.mountFails ["dev"] ["mnt", "dev"] = true ∧
    ((rec_bind_mount wMountFail ["dev"] ["mnt", "dev"]).2 = none ∧
    Event.logWarn (LogMsg.failedToMount "dev") ∈
      (rec_bind_mount wMountFail ["dev"] ["mnt", "dev"]).1) :=
  ⟨rfl, by decide, by decide,
    bind_mount_failure_nonfatal wMountFail ["dev"] ["mnt", "dev"] "dev"
      rfl (by decide) (by decide)⟩

/-- C8: an identity mapping with ids that fit in `u32` serializes to a
single line of three whitespace-separated decimal integers, and parsing
that line yields back the identical structure. -/
theorem idmap_serialize_roundtrip (m : IdMap)
    (hi : m.inside_id < 2 ^ 32) (ho : m.outside_id < 2 ^ 32)
    (hc : m.count < 2 ^ 32) (hpos : 0 < m.count) :
    splitWs (idMapToString m).data =
      [natChars m.inside_id, natChars m.outside_id, natChars m.count] ∧
    idMapFromString (idMapToString m) = some m := by
  have hsplit : splitWs (idMapToString m).data =
      [natChars m.inside_id, natChars m.outside_id, natChars m.count] := by
    rw [idMapToString_data]
    exact splitWs_three _ _ _
      (fun c hc2 => (natChars_digits _ c hc2).1) (natChars_ne_nil _)
      (fun c hc2 => (natChars_digits _ c hc2).1) (natChars_ne_nil _)
      (fun c hc2 => (natChars_digits _ c hc2).1) (natChars_ne_nil _)
  refine ⟨hsplit, ?_⟩
  unfold idMapFromString
  rw [hsplit]
  simp [parseU32_natChars _ hi, parseU32_natChars _ ho, parseU32_natChars _ hc]

/-- Witness for `idmap_serialize_roundtrip` at the spec's example
`IdentityMapping{1000, 1000, 1}` ↦ `"1000 1000 1"`. -/
theorem idmap_serialize_roundtrip_witness :
    idMapToString ⟨1000, 1000, 1⟩ = "1000 1000 1" ∧
    (1000 : Nat) < 2 ^ 32 ∧ (1 : Nat) < 2 ^ 32 ∧ (0 : Nat) < 1 ∧
    (splitWs (idMapToString ⟨1000, 1000, 1⟩).data =
      [natChars 1000, natChars 1000, natChars 1] ∧
    idMapFromString (idMapToString ⟨1000, 1000, 1⟩) =
      some ⟨1000, 1000, 1⟩) :=
  ⟨by decide, by decide, by decide, by decide,
    idmap_serialize_roundtrip ⟨1000, 1000, 1⟩ (by decide) (by decide)
      (by decide) (by decide)⟩

/-- C9: `chroot` captures the working directory before the root switch,
performs the switch, then re-sets the working directory to exactly the
captured path; a failure to re-resolve it is fatal, with no fallback —
the trace contains no other `setCwd` attempt. -/
theorem switch_root_restores_cwd (app : AppRun) (w : World) (cwd : HostPath)
    (hc : w.currentDir = some cwd) (hcf : w.chrootFails = false) :
    (w.setCwdFails cwd = false →
      chrootStep app w =
        ([Event.getCwd, Event.chrootTo app.mount_dir, Event.setCwd cwd],
          none)) ∧
    (w.setCwdFails cwd = true →
      chrootStep app w =
        ([Event.getCwd, Event.chrootTo app.mount_dir, Event.setCwd cwd],
          some RunErr.io)) := by
  refine ⟨fun h => ?_, fun h => ?_⟩ <;>
    · unfold chrootStep
      rw [hc]
      simp [hcf, h]

/-- Witness for `switch_root_restores_cwd`. -/
theorem switch_root_restores_cwd_witness :
    w0.currentDir = some ["root"] ∧ w0.chrootFails = false ∧
    ((w0.setCwdFails ["root"] = false →
      chrootStep appU w0 =
        ([Event.getCwd, Event.chrootTo appU.mount_dir,
          Event.setCwd ["root"]], none)) ∧
    (w0.setCwdFails ["root"] = true →
      chrootStep appU w0 =
        ([Event.getCwd, Event.chrootTo appU.mount_dir,
          Event.setCwd ["root"]], some RunErr.io))) :=
  ⟨rfl, rfl, switch_root_restores_cwd appU w0 ["root"] rfl rfl⟩

/-- C10: a path whose final component is the reserved store name `"nix"` is
skipped by the bind loop before any probe or mount — its step contributes no
event at all (silent drop), and the loop over a list starting with it equals
the loop over the remaining entries. -/
theorem nix_named_path_skipped (app : AppRun) (w : World) (p : HostPath)
    (h : fileName p = some "nix") :
    bindStep app w p = ([], none) ∧
    ∀ ps, bindLoop app w (p :: ps) = bindLoop app w ps := by
  have hstep : bindStep app w p = ([], none) := by
    unfold bindStep
    rw [h]
    simp
  refine ⟨hstep, fun ps => ?_⟩
  simp only [bindLoop, hstep]
  rcases hl : bindLoop app w ps with ⟨tr, r⟩
  simp

/-- Witness for `nix_named_path_skipped`: an explicitly supplied bind path
named `nix`. -/
theorem nix_named_path_skipped_witness :
    fileName [("nix" : String)] = some "nix" ∧
    (bindStep appU w0 ["nix"] = ([], none) ∧
    ∀ ps, bindLoop appU w0 (["nix"] :: ps) = bindLoop appU w0 ps) :=
  ⟨rfl, nix_named_path_skipped appU w0 ["nix"] rfl⟩

end NixAppImage
